import Mathlib

/-
Verification of the genmath numeric utility library.

The Go source is shallowly embedded as follows:

* Floating-point values flowing through the arithmetic kernels (`FMod`,
  `QuickDerivative`, `QuickIntegral`, range algebra) are modelled by exact
  rationals `ℚ`; every concrete input appearing in the spec's examples is
  exactly representable, and the operations involved (addition, subtraction,
  negation, the `fmod` remainder of exactly representable values) are exact
  in IEEE-754 double precision, so the rational model is faithful on the
  claims' domain.
* Go's `float64` NaN outcome is modelled by `Option`: `none` is NaN.
* The `int64` instantiation of the `Integer`-generic functions is modelled by
  `ℤ` together with explicit two's-complement wrapping at 2^64 (`int64wrap`)
  and the Go `uint64(x)` conversion (`uint64ofInt64`); a Go runtime panic
  (integer division by zero) is modelled by `Option`: `none` is the panic.
* The special-value constructors (`QNaN32`, `PInf64`, ...) reinterpret fixed
  bit patterns; a float is modelled by the structure carrying its bit pattern.
* `QuickIntegral`'s `for !done` loop is modelled by an explicit state record
  `QIState` with a one-iteration body `QuickIntegralStep` and a fuel-indexed
  runner `QuickIntegralFuel`; `none` means the loop did not finish within the
  given fuel.  This is the exact-arithmetic reading of the loop: `xLo + res`
  never wraps or rounds, which is faithful per iteration for every exactly
  representable float64 value but idealizes the fixed-width and floating
  cursor arithmetic in the large.  The top-level `QuickIntegral` supplies
  fuel `((to - from) / res).num.toNat + 1`, proved sufficient for this exact
  loop whenever `resolution > 0` (`quickIntegralFuel_isSome`), so
  `QuickIntegral ... = some r` holds exactly when the exact loop terminates,
  with final sum `r`.
* Because the exact reading decides termination questions optimistically, the
  `int64` instantiation of the same loop is embedded separately
  (`QuickIntegralStepInt64`, `QuickIntegralFuelInt64`), with every addition
  and multiplication wrapped through `int64wrap` and Go's truncating `/ 2`;
  it witnesses that the wrapped cursor can diverge even at a positive
  resolution.
-/

/-- GoMin embeds the source's `Min` (Go: `if a < b { return a }; return b`),
named `GoMin` because `Min` is taken by Lean core. -/
def GoMin (a b : ℚ) : ℚ := if a < b then a else b

/-- GoMax embeds the source's `Max` (Go: `if a > b { return a }; return b`). -/
def GoMax (a b : ℚ) : ℚ := if a > b then a else b

/-- RangesOverlap embeds the source's
`return startA <= endB && startB <= endA`. -/
def RangesOverlap (startA endA startB endB : ℚ) : Bool :=
  decide (startA ≤ endB) && decide (startB ≤ endA)

/-- CombineRangesIfOverlap embeds the source: return `(false, 0, 0)` when
`RangesOverlap` fails, else `(true, Min(startA,startB), Max(endA,endB))`. -/
def CombineRangesIfOverlap (startA endA startB endB : ℚ) : Bool × ℚ × ℚ :=
  if !(RangesOverlap startA endA startB endB) then (false, 0, 0)
  else (true, GoMin startA startB, GoMax endA endB)

/-- GoFloat32 models a Go `float32` by its raw IEEE-754 bit pattern. -/
structure GoFloat32 where
  bits : ℕ

/-- GoFloat64 models a Go `float64` by its raw IEEE-754 bit pattern. -/
structure GoFloat64 where
  bits : ℕ

/-- Float32frombits embeds `math.Float32frombits`: reinterpret 32 bits. -/
def Float32frombits (b : ℕ) : GoFloat32 := ⟨b % 2 ^ 32⟩

/-- Float64frombits embeds `math.Float64frombits`: reinterpret 64 bits. -/
def Float64frombits (b : ℕ) : GoFloat64 := ⟨b % 2 ^ 64⟩

/-- Float32bits embeds `math.Float32bits`: expose the raw bit pattern. -/
def Float32bits (x : GoFloat32) : ℕ := x.bits

/-- Float64bits embeds `math.Float64bits`: expose the raw bit pattern. -/
def Float64bits (x : GoFloat64) : ℕ := x.bits

/-- QNaN32 embeds the source: `math.Float32frombits(0xFFC00001)`. -/
def QNaN32 : GoFloat32 := Float32frombits 0xFFC00001

/-- SNaN32 embeds the source: `math.Float32frombits(0xFF800001)`. -/
def SNaN32 : GoFloat32 := Float32frombits 0xFF800001

/-- PInf32 embeds the source: `math.Float32frombits(0x7F800000)`. -/
def PInf32 : GoFloat32 := Float32frombits 0x7F800000

/-- NInf32 embeds the source: `math.Float32frombits(0xFF800000)`. -/
def NInf32 : GoFloat32 := Float32frombits 0xFF800000

/-- SNaN64 embeds the source: `math.Float64frombits(0x7FF0000000000001)`. -/
def SNaN64 : GoFloat64 := Float64frombits 0x7FF0000000000001

/-- QNaN64 embeds the source: `math.Float64frombits(0x7FF8000000000001)`. -/
def QNaN64 : GoFloat64 := Float64frombits 0x7FF8000000000001

/-- PInf64 embeds the source: `math.Float64frombits(0x7FF0000000000000)`. -/
def PInf64 : GoFloat64 := Float64frombits 0x7FF0000000000000

/-- NInf64 embeds the source: `math.Float64frombits(0xFFF0000000000000)`. -/
def NInf64 : GoFloat64 := Float64frombits 0xFFF0000000000000

/-- int64wrap reduces an unbounded integer to the value of the two's-complement
64-bit signed word holding its low 64 bits; it models every Go `int64`
operation that can wrap (negation of the most negative value, and the
`uint64` to `int64` reinterpreting conversion `T(uMod)`). -/
def int64wrap (n : ℤ) : ℤ := (n + 2 ^ 63) % 2 ^ 64 - 2 ^ 63

/-- uint64ofInt64 models the Go conversion `uint64(x)` of an `int64` value:
reinterpret the low 64 bits as unsigned. -/
def uint64ofInt64 (n : ℤ) : ℕ := (n % 2 ^ 64).toNat

/-- IMod embeds the source's `IMod` at the `int64` instantiation: record the
signs, strip them (Go's `val = -val` wraps on the most negative value, hence
`int64wrap`), convert to `uint64`, take the unsigned remainder `uVal % uDiv`
(whose divide-by-zero panic is `none`), reinterpret as `int64`, and negate
exactly when `(negV && !negD) || (!negV && negD)`. -/
def IMod (val div : ℤ) : Option ℤ :=
  let val1 : ℤ := if val < 0 then int64wrap (-val) else val
  let div1 : ℤ := if div < 0 then int64wrap (-div) else div
  let uVal : ℕ := uint64ofInt64 val1
  let uDiv : ℕ := uint64ofInt64 div1
  if uDiv = 0 then none
  else
    let uMod : ℕ := uVal % uDiv
    let m : ℤ := int64wrap (uMod : ℤ)
    some (if (val < 0 ∧ ¬div < 0) ∨ (¬val < 0 ∧ div < 0) then int64wrap (-m) else m)

/-- IWholeRem embeds the source: `whole := value / mod; rem := value - whole`,
where Go's `/` on signed integers is truncating division (`Int.tdiv`); this is
the exact-integer reading of the generic function (Go's fixed-width
instantiations agree except on the single overflowing input pair). -/
def IWholeRem (value mod : ℤ) : ℤ × ℤ :=
  let whole := value.tdiv mod
  let rem := value - whole
  (whole, rem)

/-- goFloor is the floor of a rational, computed from its reduced fraction;
`Int` division in Lean is euclidean, which for the positive denominator is
floor division. -/
def goFloor (q : ℚ) : ℤ := q.num / (q.den : ℤ)

/-- goTrunc rounds toward zero, as C/Go `trunc` does; used to model the
`fmod`-style remainder `x - trunc(x/y)*y` computed by `math.Mod`. -/
def goTrunc (q : ℚ) : ℤ := if q < 0 then -goFloor (-q) else goFloor q

/-- mathMod models Go's `math.Mod(x, y)` on finite values: `NaN` (here
`none`) for `y = 0`, else the exact truncating remainder `x - trunc(x/y)*y`
(`fmod` is exact, so the rational value is the IEEE result for exactly
representable operands). -/
def mathMod (x y : ℚ) : Option ℚ :=
  if y = 0 then none else some (x - (goTrunc (x / y) : ℚ) * y)

/-- FMod embeds the source's `FMod` at the `float64` instantiation: record the
signs, strip them, take `math.Mod` of the magnitudes (NaN modelled by `none`
and propagated through the final negation), and negate exactly when
`(negV && !negD) || (!negV && negD)`. -/
def FMod (val div : ℚ) : Option ℚ :=
  let val1 : ℚ := if val < 0 then -val else val
  let div1 : ℚ := if div < 0 then -div else div
  (mathMod val1 div1).map
    (fun m => if (val < 0 ∧ ¬div < 0) ∨ (¬val < 0 ∧ div < 0) then -m else m)

/-- idQ is the identity test function `f(x) = x` used by the spec's
`QuickDerivative` example. -/
def idQ : ℚ → ℚ := fun x => x

/-- constOneQ is the constant test function `f(x) = 1` used by the spec's
`QuickIntegral` example. -/
def constOneQ : ℚ → ℚ := fun _ => 1

/-- QuickDerivative embeds the source:
`xHi, xLo := at+resolution, at-resolution; yHi, yLo := formula(xHi), formula(xLo);`
`slope := (yHi - yLo) / (xHi / xLo)`. -/
def QuickDerivative (at' res : ℚ) (f : ℚ → ℚ) : ℚ :=
  let xHi := at' + res
  let xLo := at' - res
  let yHi := f xHi
  let yLo := f xLo
  (yHi - yLo) / (xHi / xLo)

/-- QIState is the mutable state of `QuickIntegral`'s loop: the accumulator
`sum`, the cursor `xLo`, and the `done` flag. -/
structure QIState where
  sum : ℚ
  xLo : ℚ
  done : Bool

/-- QuickIntegralStep is one iteration of the source's loop body:
`xHi = xLo + resolution`; clamp `xHi` to `to` and set `done` when
`xHi >= to`; accumulate `(resolution*yLo + resolution*yHi) / 2` (full
`resolution` width even on the clamped final step); advance `xLo = xHi`. -/
def QuickIntegralStep (to' res : ℚ) (f : ℚ → ℚ) (s : QIState) : QIState :=
  let xHi0 := s.xLo + res
  if to' ≤ xHi0 then
    { sum := s.sum + (res * f s.xLo + res * f to') / 2, xLo := to', done := true }
  else
    { sum := s.sum + (res * f s.xLo + res * f xHi0) / 2, xLo := xHi0, done := false }

/-- QuickIntegralFuel runs the source's `for !done` loop for at most `fuel`
iterations: `none` means the loop had not finished. -/
def QuickIntegralFuel (to' res : ℚ) (f : ℚ → ℚ) : ℕ → QIState → Option ℚ
  | 0, s => if s.done then some s.sum else none
  | Nat.succ n, s =>
    if s.done then some s.sum
    else QuickIntegralFuel to' res f n (QuickIntegralStep to' res f s)

/-- QuickIntegral embeds the source: swap the bounds when `from > to`, then
run the loop from state `(sum, xLo, done) = (0, from, false)`.  The fuel
`((to - from) / res).num.toNat + 1` is proved sufficient for this
exact-arithmetic loop whenever `resolution > 0`, so `some r` is exactly "the
exact loop returns `r`". -/
def QuickIntegral (from' to' res : ℚ) (f : ℚ → ℚ) : Option ℚ :=
  let p : ℚ × ℚ := if from' > to' then (to', from') else (from', to')
  QuickIntegralFuel p.2 res f (((p.2 - p.1) / res).num.toNat + 1) ⟨0, p.1, false⟩

/-- QuickIntegralLoopDiverges says the source's loop (after the `from > to`
swap, from the initial state) finishes within no amount of fuel at all: the
Go `for !done` loop runs forever on these arguments. -/
def QuickIntegralLoopDiverges (from' to' res : ℚ) (f : ℚ → ℚ) : Prop :=
  ∀ fuel : ℕ,
    QuickIntegralFuel (if from' > to' then (to', from') else (from', to')).2 res f fuel
      ⟨0, (if from' > to' then (to', from') else (from', to')).1, false⟩ = none

/-- QIStateInt is the loop state of the `int64` instantiation of
`QuickIntegral`: accumulator, cursor and `done` flag as 64-bit words. -/
structure QIStateInt where
  sum : ℤ
  xLo : ℤ
  done : Bool

/-- zeroZ is the constant-zero formula used to exercise the `int64` loop. -/
def zeroZ : ℤ → ℤ := fun _ => 0

/-- QuickIntegralStepInt64 is one iteration of the source's loop body at the
`int64` instantiation: `xHi = xLo + resolution` wraps (`int64wrap`), `xHi` is
clamped to `to` and `done` set when `xHi >= to`, the areas
`resolution * yLo`, `resolution * yHi` and their sum wrap, `/ 2` is Go's
truncating division, and the accumulation into `sum` wraps. -/
def QuickIntegralStepInt64 (to' res : ℤ) (f : ℤ → ℤ) (s : QIStateInt) : QIStateInt :=
  let xHi0 := int64wrap (s.xLo + res)
  if to' ≤ xHi0 then
    { sum := int64wrap (s.sum +
        (int64wrap (int64wrap (res * f s.xLo) + int64wrap (res * f to'))).tdiv 2),
      xLo := to', done := true }
  else
    { sum := int64wrap (s.sum +
        (int64wrap (int64wrap (res * f s.xLo) + int64wrap (res * f xHi0))).tdiv 2),
      xLo := xHi0, done := false }

/-- QuickIntegralFuelInt64 runs the `int64` loop for at most `fuel`
iterations: `none` means the loop had not finished. -/
def QuickIntegralFuelInt64 (to' res : ℤ) (f : ℤ → ℤ) : ℕ → QIStateInt → Option ℤ
  | 0, s => if s.done then some s.sum else none
  | Nat.succ n, s =>
    if s.done then some s.sum
    else QuickIntegralFuelInt64 to' res f n (QuickIntegralStepInt64 to' res f s)

/-- QuickIntegralInt64Diverges says the `int64` loop (after the `from > to`
swap, from the initial state) finishes within no amount of fuel at all. -/
def QuickIntegralInt64Diverges (from' to' res : ℤ) (f : ℤ → ℤ) : Prop :=
  ∀ fuel : ℕ,
    QuickIntegralFuelInt64 (if from' > to' then (to', from') else (from', to')).2 res f fuel
      ⟨0, (if from' > to' then (to', from') else (from', to')).1, false⟩ = none

lemma GoMin_eq_min (a b : ℚ) : GoMin a b = min a b := by
  unfold GoMin
  rcases lt_or_ge a b with h | h
  · rw [if_pos h]; exact (min_eq_left h.le).symm
  · rw [if_neg (not_lt.mpr h)]; exact (min_eq_right h).symm

lemma GoMax_eq_max (a b : ℚ) : GoMax a b = max a b := by
  unfold GoMax
  rcases lt_or_ge b a with h | h
  · rw [if_pos h]; exact (max_eq_left h.le).symm
  · rw [if_neg (not_lt.mpr h)]; exact (max_eq_right h).symm

lemma int64wrap_eq_self {n : ℤ} (h1 : -(2 ^ 63) ≤ n) (h2 : n < 2 ^ 63) :
    int64wrap n = n := by
  unfold int64wrap
  omega

lemma uint64ofInt64_small {n : ℤ} (h1 : 0 ≤ n) (h2 : n < 2 ^ 64) :
    uint64ofInt64 n = n.toNat := by
  unfold uint64ofInt64
  rw [Int.emod_eq_of_lt h1 h2]

lemma imod_general (val div : ℤ) (hd : div ≠ 0)
    (hv63 : val.natAbs < 2 ^ 63) (hd63 : div.natAbs < 2 ^ 63) :
    IMod val div = some (if (val < 0 ∧ ¬div < 0) ∨ (¬val < 0 ∧ div < 0)
      then -((val.natAbs % div.natAbs : ℕ) : ℤ)
      else ((val.natAbs % div.natAbs : ℕ) : ℤ)) := by
  have hval1 : (if val < 0 then int64wrap (-val) else val) = (val.natAbs : ℤ) := by
    by_cases hv : val < 0
    · rw [if_pos hv, int64wrap_eq_self (by omega) (by omega)]; omega
    · rw [if_neg hv]; omega
  have hdiv1 : (if div < 0 then int64wrap (-div) else div) = (div.natAbs : ℤ) := by
    by_cases hD : div < 0
    · rw [if_pos hD, int64wrap_eq_self (by omega) (by omega)]; omega
    · rw [if_neg hD]; omega
  unfold IMod
  simp only [hval1, hdiv1]
  rw [uint64ofInt64_small (by omega) (by omega),
    uint64ofInt64_small (by omega) (by omega)]
  simp only [Int.toNat_natCast]
  rw [if_neg (by omega)]
  have hmodlt : val.natAbs % div.natAbs < 2 ^ 63 :=
    lt_trans (Nat.mod_lt _ (by omega)) hd63
  rw [int64wrap_eq_self (n := ((val.natAbs % div.natAbs : ℕ) : ℤ))
    (by omega) (by omega)]
  by_cases hflip : (val < 0 ∧ ¬div < 0) ∨ (¬val < 0 ∧ div < 0)
  · rw [if_pos hflip, if_pos hflip, int64wrap_eq_self (by omega) (by omega)]
  · rw [if_neg hflip, if_neg hflip]

lemma tdiv_eq_sign_mul_natAbs (v m : ℤ) :
    v.tdiv m = v.sign * m.sign * (v.natAbs / m.natAbs : ℕ) := by
  rcases v with a | a <;> rcases m with b | b
  · rcases a with _ | a <;> rcases b with _ | b <;>
      simp [Int.tdiv, Int.sign, Int.natAbs, Nat.div_zero]
  · rcases a with _ | a <;>
      simp [Int.tdiv, Int.sign, Int.natAbs]
  · rcases b with _ | b <;>
      simp [Int.tdiv, Int.sign, Int.natAbs, Nat.div_zero]
  · simp [Int.tdiv, Int.sign, Int.natAbs]

lemma goFloor_eq_floor (q : ℚ) : goFloor q = ⌊q⌋ := Rat.floor_def.symm

lemma goTrunc_of_nonneg {q : ℚ} (h : 0 ≤ q) : goTrunc q = ⌊q⌋ := by
  unfold goTrunc
  rw [if_neg (not_lt.mpr h), goFloor_eq_floor]

lemma fmod_general (val div : ℚ) (hd : div ≠ 0) :
    FMod val div = some (if (val < 0 ∧ ¬div < 0) ∨ (¬val < 0 ∧ div < 0)
      then -(|val| - |div| * ⌊|val| / |div|⌋)
      else |val| - |div| * ⌊|val| / |div|⌋) := by
  have habsv : (if val < 0 then -val else val) = |val| := by
    by_cases hv : val < 0
    · rw [if_pos hv, abs_of_neg hv]
    · rw [if_neg hv, abs_of_nonneg (not_lt.mp hv)]
  have habsd : (if div < 0 then -div else div) = |div| := by
    by_cases hD : div < 0
    · rw [if_pos hD, abs_of_neg hD]
    · rw [if_neg hD, abs_of_nonneg (not_lt.mp hD)]
  unfold FMod mathMod
  simp only [habsv, habsd]
  rw [if_neg (abs_ne_zero.mpr hd)]
  rw [goTrunc_of_nonneg (div_nonneg (abs_nonneg val) (abs_nonneg div))]
  simp only [Option.map_some']
  have harith : |val| - (⌊|val| / |div|⌋ : ℚ) * |div| = |val| - |div| * ⌊|val| / |div|⌋ := by
    ring
  rw [harith]

lemma fmod_neg_seven_three : FMod (-7) 3 = some (-1) := by
  rw [fmod_general (-7) 3 (by norm_num)]
  norm_num

lemma quickIntegralFuel_zero (to' res : ℚ) (f : ℚ → ℚ) (s : QIState) :
    QuickIntegralFuel to' res f 0 s = if s.done then some s.sum else none := rfl

lemma quickIntegralFuel_succ (to' res : ℚ) (f : ℚ → ℚ) (n : ℕ) (s : QIState) :
    QuickIntegralFuel to' res f (n + 1) s =
      if s.done then some s.sum
      else QuickIntegralFuel to' res f n (QuickIntegralStep to' res f s) := rfl

lemma quickIntegralFuel_done {to' res : ℚ} {f : ℚ → ℚ} {n : ℕ} {s : QIState}
    (h : s.done = true) : QuickIntegralFuel to' res f n s = some s.sum := by
  cases n
  · rw [quickIntegralFuel_zero, if_pos h]
  · rw [quickIntegralFuel_succ, if_pos h]

lemma quickIntegralFuel_isSome (to' res : ℚ) (f : ℚ → ℚ) (hres : 0 < res) :
    ∀ (fuel : ℕ) (s : QIState), s.done = false →
      (⌈(to' - s.xLo) / res⌉).toNat < fuel →
      (QuickIntegralFuel to' res f fuel s).isSome := by
  intro fuel
  induction fuel with
  | zero => intro s _ h; exact absurd h (Nat.not_lt_zero _)
  | succ n ih =>
    intro s hdone hlt
    rw [quickIntegralFuel_succ, if_neg (by simp [hdone])]
    by_cases hd : (QuickIntegralStep to' res f s).done = true
    · rw [quickIntegralFuel_done hd]
      rfl
    · have hnd : (QuickIntegralStep to' res f s).done = false :=
        Bool.not_eq_true _ ▸ (eq_false_of_ne_true hd)
      have hcond : ¬ to' ≤ s.xLo + res := by
        intro hc
        apply hd
        unfold QuickIntegralStep
        rw [if_pos hc]
      have hxlo : (QuickIntegralStep to' res f s).xLo = s.xLo + res := by
        unfold QuickIntegralStep
        rw [if_neg hcond]
      apply ih _ hnd
      rw [hxlo]
      have hresne : res ≠ 0 := hres.ne'
      have hq : (to' - (s.xLo + res)) / res = (to' - s.xLo) / res - 1 := by
        field_simp
        ring
      rw [hq, Int.ceil_sub_one]
      have h1lt : (1 : ℚ) < (to' - s.xLo) / res := by
        rw [lt_div_iff₀ hres]
        linarith [not_le.mp hcond]
      have h2le : 2 ≤ ⌈(to' - s.xLo) / res⌉ := by
        have h := Int.lt_ceil.mpr (show ((1:ℤ) : ℚ) < (to' - s.xLo) / res by exact_mod_cast h1lt)
        omega
      omega

lemma ceil_toNat_le_num_toNat (q : ℚ) : ⌈q⌉.toNat ≤ q.num.toNat := by
  rcases le_or_lt 0 q.num with h | h
  · have hden : (1 : ℚ) ≤ (q.den : ℚ) := by
      exact_mod_cast Nat.one_le_iff_ne_zero.mpr q.den_nz
    have hq : q ≤ (q.num : ℚ) := by
      conv_lhs => rw [← Rat.num_div_den q]
      exact div_le_self (by exact_mod_cast h) hden
    have hc : ⌈q⌉ ≤ q.num := by
      have := Int.ceil_le_ceil hq
      rwa [Int.ceil_intCast] at this
    omega
  · have hq : q < 0 := by
      by_contra hc
      have := Rat.num_nonneg.mpr (not_lt.mp hc)
      omega
    have hc : ⌈q⌉ ≤ 0 := Int.ceil_le.mpr (by exact_mod_cast hq.le)
    omega

lemma quickIntegralFuelInt64_zero (to' res : ℤ) (f : ℤ → ℤ) (s : QIStateInt) :
    QuickIntegralFuelInt64 to' res f 0 s = if s.done then some s.sum else none := rfl

lemma quickIntegralFuelInt64_succ (to' res : ℤ) (f : ℤ → ℤ) (n : ℕ) (s : QIStateInt) :
    QuickIntegralFuelInt64 to' res f (n + 1) s =
      if s.done then some s.sum
      else QuickIntegralFuelInt64 to' res f n (QuickIntegralStepInt64 to' res f s) := rfl

lemma int64_parity_loop (f : ℤ → ℤ) :
    ∀ (fuel : ℕ) (s : QIStateInt), s.done = false → s.xLo % 2 = 0 →
      -(2 ^ 63) ≤ s.xLo → s.xLo < 2 ^ 63 →
      QuickIntegralFuelInt64 (2 ^ 63 - 1) 2 f fuel s = none := by
  intro fuel
  induction fuel with
  | zero =>
    intro s hdone _ _ _
    rw [quickIntegralFuelInt64_zero, if_neg (by simp [hdone])]
  | succ n ih =>
    intro s hdone hpar hlo hhi
    rw [quickIntegralFuelInt64_succ, if_neg (by simp [hdone])]
    have hw : int64wrap (s.xLo + 2) % 2 = 0 ∧ -(2 ^ 63) ≤ int64wrap (s.xLo + 2) ∧
        int64wrap (s.xLo + 2) < 2 ^ 63 ∧ ¬ ((2:ℤ) ^ 63 - 1 ≤ int64wrap (s.xLo + 2)) := by
      unfold int64wrap
      omega
    have hcond : ¬ ((2:ℤ) ^ 63 - 1 ≤ int64wrap (s.xLo + 2)) := hw.2.2.2
    have hdone' : (QuickIntegralStepInt64 (2 ^ 63 - 1) 2 f s).done = false := by
      unfold QuickIntegralStepInt64
      rw [if_neg hcond]
    have hxlo' : (QuickIntegralStepInt64 (2 ^ 63 - 1) 2 f s).xLo = int64wrap (s.xLo + 2) := by
      unfold QuickIntegralStepInt64
      rw [if_neg hcond]
    apply ih _ hdone'
    · rw [hxlo']; exact hw.1
    · rw [hxlo']; exact hw.2.1
    · rw [hxlo']; exact hw.2.2.1

lemma quickIntegral_eq_loop (from' to' res : ℚ) (f : ℚ → ℚ) (h : ¬ from' > to') :
    QuickIntegral from' to' res f =
      QuickIntegralFuel to' res f (((to' - from') / res).num.toNat + 1)
        ⟨0, from', false⟩ := by
  unfold QuickIntegral
  rw [if_neg h]

lemma quickIntegral_eq_loop_swap (from' to' res : ℚ) (f : ℚ → ℚ) (h : from' > to') :
    QuickIntegral from' to' res f =
      QuickIntegralFuel from' res f (((from' - to') / res).num.toNat + 1)
        ⟨0, to', false⟩ := by
  unfold QuickIntegral
  rw [if_pos h]

lemma const_one_loop : ∀ (n : ℕ) (sum xLo : ℚ), 1 ≤ n → xLo = 10 - n →
    QuickIntegralFuel 10 1 constOneQ (n + 1) ⟨sum, xLo, false⟩ = some (sum + n) := by
  intro n
  induction n with
  | zero => intro sum xLo h _; exact absurd h (by norm_num)
  | succ m ih =>
    intro sum xLo _ hx
    rw [quickIntegralFuel_succ, if_neg (by simp)]
    rcases Nat.eq_zero_or_pos m with hm | hm
    · subst hm
      subst hx
      have hstep : QuickIntegralStep 10 1 constOneQ ⟨sum, 10 - ((0:ℕ)+1 : ℕ), false⟩
          = ⟨sum + 1, 10, true⟩ := by
        unfold QuickIntegralStep constOneQ
        rw [if_pos (by push_cast; linarith)]
        norm_num
      rw [hstep, quickIntegralFuel_done rfl]
      norm_num
    · subst hx
      have hstep : QuickIntegralStep 10 1 constOneQ ⟨sum, 10 - ((m+1 : ℕ) : ℚ), false⟩
          = ⟨sum + 1, 10 - (m : ℚ), false⟩ := by
        unfold QuickIntegralStep constOneQ
        rw [if_neg (by push_cast; intro hc; linarith [show (1:ℚ) ≤ (m:ℚ) by exact_mod_cast hm])]
        norm_num
        ring
      rw [hstep, ih (sum + 1) (10 - (m:ℚ)) hm rfl]
      congr 1
      push_cast
      ring

/-- C1 counterexample: the code negates the remainder exactly when the
operands' signs differ, so `IMod(7,-3)` evaluates to `-1` (not the claimed
`1`) and `IMod(-7,-3)` evaluates to `1` (not the claimed `-1`). -/
theorem imod_native_mod_values_refuted :
    IMod 7 (-3) = some (-1) ∧ IMod (-7) (-3) = some 1 ∧
    ¬ IMod 7 (-3) = some 1 ∧ ¬ IMod (-7) (-3) = some (-1) := by
  refine ⟨by decide, by decide, by decide, by decide⟩

/-- C1 (amended): for IMod (with nonzero divisor and magnitudes below 2^63)
and FMod (with nonzero divisor), the result's magnitude is the
magnitudes-only remainder `|val| mod |div|` and the result is negated exactly
when exactly one of `val`, `div` is negative; in particular
`IMod(-7,3) = -1`, `IMod(7,-3) = -1`, `IMod(-7,-3) = 1`, `IMod(7,3) = 1`,
and `FMod(-7.0,3.0) = -1.0`. -/
theorem imod_fmod_sign_flip_on_mixed_signs :
    (∀ val div : ℤ, div ≠ 0 → val.natAbs < 2 ^ 63 → div.natAbs < 2 ^ 63 →
      IMod val div = some (if (val < 0 ∧ ¬div < 0) ∨ (¬val < 0 ∧ div < 0)
        then -((val.natAbs % div.natAbs : ℕ) : ℤ)
        else ((val.natAbs % div.natAbs : ℕ) : ℤ))) ∧
    (∀ val div : ℚ, div ≠ 0 →
      FMod val div = some (if (val < 0 ∧ ¬div < 0) ∨ (¬val < 0 ∧ div < 0)
        then -(|val| - |div| * ⌊|val| / |div|⌋)
        else |val| - |div| * ⌊|val| / |div|⌋)) ∧
    IMod (-7) 3 = some (-1) ∧ IMod 7 (-3) = some (-1) ∧
    IMod (-7) (-3) = some 1 ∧ IMod 7 3 = some 1 ∧
    FMod (-7) 3 = some (-1) := by
  exact ⟨imod_general, fmod_general, by decide, by decide, by decide, by decide,
    fmod_neg_seven_three⟩

/-- C1 witness: the amended theorem applied at `IMod (-7) 3` and
`FMod (-7) 3`, with every hypothesis discharged on concrete input. -/
theorem imod_fmod_sign_flip_witness :
    ((3:ℤ) ≠ 0 ∧ (-7:ℤ).natAbs < 2 ^ 63 ∧ (3:ℤ).natAbs < 2 ^ 63 ∧ (3:ℚ) ≠ 0) ∧
    IMod (-7) 3 = some (if ((-7:ℤ) < 0 ∧ ¬(3:ℤ) < 0) ∨ (¬(-7:ℤ) < 0 ∧ (3:ℤ) < 0)
      then -(((-7:ℤ).natAbs % (3:ℤ).natAbs : ℕ) : ℤ)
      else (((-7:ℤ).natAbs % (3:ℤ).natAbs : ℕ) : ℤ)) ∧
    FMod (-7) 3 = some (if ((-7:ℚ) < 0 ∧ ¬(3:ℚ) < 0) ∨ (¬(-7:ℚ) < 0 ∧ (3:ℚ) < 0)
      then -(|(-7:ℚ)| - |(3:ℚ)| * ⌊|(-7:ℚ)| / |(3:ℚ)|⌋)
      else |(-7:ℚ)| - |(3:ℚ)| * ⌊|(-7:ℚ)| / |(3:ℚ)|⌋) :=
  ⟨⟨by decide, by decide, by decide, by norm_num⟩,
    imod_fmod_sign_flip_on_mixed_signs.1 (-7) 3 (by decide) (by decide) (by decide),
    imod_fmod_sign_flip_on_mixed_signs.2.1 (-7) 3 (by norm_num)⟩

/-- C2: `QuickDerivative(at, resolution, formula)` returns
`(formula(at+resolution) - formula(at-resolution)) / ((at+resolution)/(at-resolution))`
(the divisor is the ratio `xHi/xLo`, not the difference), so for the identity
function at `at = 5`, `resolution = 1` it returns `(6-4)/(6/4) = 4/3`, not `1`. -/
theorem quickDerivative_ratio_denominator :
    (∀ (a res : ℚ) (f : ℚ → ℚ),
      QuickDerivative a res f = (f (a + res) - f (a - res)) / ((a + res) / (a - res)))
    ∧ QuickDerivative 5 1 idQ = 4 / 3
    ∧ QuickDerivative 5 1 idQ ≠ 1 := by
  refine ⟨fun a res f => rfl, ?_, ?_⟩
  · unfold QuickDerivative idQ
    norm_num
  · unfold QuickDerivative idQ
    norm_num

/-- C3: each loop iteration adds the trapezoid area
`resolution * (formula(xLo) + formula(xHi)) / 2` with `xHi` clamped to `to`
but the area width always the full unclamped `resolution`; for the constant
function `1`, `QuickIntegral(0, 10, 1, f)` returns exactly `10`. -/
theorem quickIntegral_trapezoid_full_width :
    (∀ (to' res : ℚ) (f : ℚ → ℚ) (s : QIState),
      (QuickIntegralStep to' res f s).sum =
        s.sum + res * (f s.xLo + f (min (s.xLo + res) to')) / 2)
    ∧ QuickIntegral 0 10 1 constOneQ = some 10 := by
  constructor
  · intro to' res f s
    unfold QuickIntegralStep
    by_cases h : to' ≤ s.xLo + res
    · rw [if_pos h, min_eq_right h]
      ring_nf
    · rw [if_neg h, min_eq_left (not_le.mp h).le]
      ring_nf
  · rw [quickIntegral_eq_loop 0 10 1 constOneQ (by norm_num)]
    have hfuel : (((10:ℚ) - 0) / 1).num.toNat + 1 = 10 + 1 := by norm_num; rfl
    rw [hfuel, const_one_loop 10 0 0 (by norm_num) (by norm_num)]
    norm_num

/-- C4 counterexample: at `from = 0`, `to = 1`, `resolution = 0` the loop
state never changes and `done` never becomes true, so the loop finishes
within no amount of fuel: the Go loop does not terminate, and the fuelled
embedding reports `none`. -/
theorem quickIntegral_nontermination_at_zero_resolution :
    QuickIntegralLoopDiverges 0 1 0 idQ ∧ QuickIntegral 0 1 0 idQ = none := by
  have hif : (if (0:ℚ) > 1 then ((1:ℚ), (0:ℚ)) else ((0:ℚ), (1:ℚ))) = ((0:ℚ), (1:ℚ)) := by
    norm_num
  have hfix : QuickIntegralStep 1 0 idQ ⟨0, 0, false⟩ = ⟨0, 0, false⟩ := by
    unfold QuickIntegralStep idQ
    rw [if_neg (by norm_num)]
    norm_num
  have hloop : ∀ fuel : ℕ, QuickIntegralFuel 1 0 idQ fuel ⟨0, 0, false⟩ = none := by
    intro fuel
    induction fuel with
    | zero => rw [quickIntegralFuel_zero, if_neg (by simp)]
    | succ n ih => rw [quickIntegralFuel_succ, if_neg (by simp), hfix, ih]
  constructor
  · intro fuel
    rw [show (if (0:ℚ) > 1 then ((1:ℚ), (0:ℚ)) else ((0:ℚ), (1:ℚ))).2 = 1 by rw [hif],
      show (if (0:ℚ) > 1 then ((1:ℚ), (0:ℚ)) else ((0:ℚ), (1:ℚ))).1 = 0 by rw [hif]]
    exact hloop fuel
  · rw [quickIntegral_eq_loop 0 1 0 idQ (by norm_num)]
    rw [show (((1:ℚ) - 0) / 0).num.toNat + 1 = 1 by norm_num]
    exact hloop 1

/-- C4 (amended): `QuickIntegral`'s loop does not terminate for every choice
of arguments.  When `resolution > 0` and every `xLo + resolution` is computed
exactly — the exact-arithmetic reading of the loop — it terminates for every
`from`, `to` and `formula` (first conjunct); but beside the `resolution = 0`
divergence of the counterexample, the fixed-width instantiations can diverge
even at a positive resolution: at `int64` with `from = MinInt64`,
`to = MaxInt64`, `resolution = 2`, the wrapped cursor keeps its parity, never
equals the odd `to`, and so wraps past `to` forever (second conjunct). -/
theorem quickIntegral_terminates_of_pos_resolution :
    (∀ (from' to' res : ℚ) (f : ℚ → ℚ), 0 < res →
      (QuickIntegral from' to' res f).isSome) ∧
    QuickIntegralInt64Diverges (-(2 ^ 63)) (2 ^ 63 - 1) 2 zeroZ := by
  constructor
  · intro from' to' res f h
    unfold QuickIntegral
    apply quickIntegralFuel_isSome _ _ _ h _ _ rfl
    exact Nat.lt_succ_of_le (ceil_toNat_le_num_toNat
      (((if from' > to' then (to', from') else (from', to')).2 -
        (if from' > to' then (to', from') else (from', to')).1) / res))
  · intro fuel
    rw [show (if (-(2:ℤ) ^ 63) > 2 ^ 63 - 1 then (((2:ℤ) ^ 63 - 1), (-(2:ℤ) ^ 63))
          else ((-(2:ℤ) ^ 63), ((2:ℤ) ^ 63 - 1))).2 = 2 ^ 63 - 1 from by norm_num,
      show (if (-(2:ℤ) ^ 63) > 2 ^ 63 - 1 then (((2:ℤ) ^ 63 - 1), (-(2:ℤ) ^ 63))
          else ((-(2:ℤ) ^ 63), ((2:ℤ) ^ 63 - 1))).1 = -(2 ^ 63) from by norm_num]
    exact int64_parity_loop zeroZ fuel ⟨0, -(2 ^ 63), false⟩ rfl (by norm_num)
      (by norm_num) (by norm_num)

/-- C4 witness: the exact-arithmetic termination conjunct applied at concrete
arguments `from = 0`, `to = 1`, `resolution = 1`. -/
theorem quickIntegral_terminates_witness :
    (0:ℚ) < 1 ∧ (QuickIntegral 0 1 1 idQ).isSome :=
  ⟨by norm_num, quickIntegral_terminates_of_pos_resolution.1 0 1 1 idQ (by norm_num)⟩

/-- C5: `QuickIntegral` is symmetric in its bounds: swapping `from` and `to`
gives the identical result (never a negation), because a descending interval
is first swapped to the ascending one. -/
theorem quickIntegral_swap_symmetric (from' to' res : ℚ) (f : ℚ → ℚ) :
    QuickIntegral from' to' res f = QuickIntegral to' from' res f := by
  rcases lt_trichotomy from' to' with h | h | h
  · rw [quickIntegral_eq_loop from' to' res f (not_lt.mpr h.le),
      quickIntegral_eq_loop_swap to' from' res f h]
  · subst h
    rfl
  · rw [quickIntegral_eq_loop_swap from' to' res f h,
      quickIntegral_eq_loop to' from' res f (not_lt.mpr h.le)]

/-- C6: for every integer `value` and nonzero `mod`, `IWholeRem` returns
`(whole, rem)` with `whole = value / mod` as truncating division (the sign
product times the quotient of the magnitudes) and `rem = value - whole`,
not `value - whole * mod`. -/
theorem iWholeRem_truncdiv_and_rem_quirk (value mod : ℤ) (_h : mod ≠ 0) :
    IWholeRem value mod =
      (value.sign * mod.sign * (value.natAbs / mod.natAbs : ℕ),
       value - value.sign * mod.sign * (value.natAbs / mod.natAbs : ℕ)) := by
  unfold IWholeRem
  rw [tdiv_eq_sign_mul_natAbs]

/-- C6 witness: the theorem applied at `value = -7`, `mod = 3`, where it
yields `whole = -2` and `rem = -7 - (-2) = -5`. -/
theorem iWholeRem_truncdiv_witness :
    (3:ℤ) ≠ 0 ∧ IWholeRem (-7) 3 =
      ((-7:ℤ).sign * (3:ℤ).sign * ((-7:ℤ).natAbs / (3:ℤ).natAbs : ℕ),
       -7 - (-7:ℤ).sign * (3:ℤ).sign * ((-7:ℤ).natAbs / (3:ℤ).natAbs : ℕ)) :=
  ⟨by decide, iWholeRem_truncdiv_and_rem_quirk (-7) 3 (by decide)⟩

/-- C9: IMod and FMod contain no guard for a zero divisor: for every `val`
the unguarded underlying operation's divide-by-zero outcome (runtime panic
for the integer remainder, NaN for the floating remainder, both modelled by
`none`) propagates out unintercepted. -/
theorem imod_fmod_no_zero_divisor_guard :
    (∀ val : ℤ, IMod val 0 = none) ∧ (∀ val : ℚ, FMod val 0 = none) :=
  ⟨fun _ => rfl, fun _ => rfl⟩

/-- C10: for every `from` and every `resolution > 0`,
`QuickIntegral(from, from, resolution, formula)` returns
`resolution * formula(from)`: the loop body runs at least once, accumulating
one full-width trapezoid even on the empty interval. -/
theorem quickIntegral_degenerate_interval
    (from' res : ℚ) (f : ℚ → ℚ) (h : 0 < res) :
    QuickIntegral from' from' res f = some (res * f from') := by
  rw [quickIntegral_eq_loop from' from' res f (lt_irrefl from')]
  have hfuel : ((from' - from') / res).num.toNat + 1 = 0 + 1 := by
    rw [sub_self, zero_div, Rat.num_zero, Int.toNat_zero]
  rw [hfuel, quickIntegralFuel_succ, if_neg (by simp)]
  have hstep : QuickIntegralStep from' res f ⟨0, from', false⟩
      = ⟨0 + (res * f from' + res * f from') / 2, from', true⟩ := by
    unfold QuickIntegralStep
    rw [if_pos (by linarith)]
  rw [hstep, quickIntegralFuel_done rfl]
  congr 1
  ring

/-- C10 witness: the theorem applied at `from = 2`, `resolution = 1` with
the identity formula. -/
theorem quickIntegral_degenerate_witness :
    (0:ℚ) < 1 ∧ QuickIntegral 2 2 1 idQ = some (1 * idQ 2) :=
  ⟨by norm_num, quickIntegral_degenerate_interval 2 1 idQ (by norm_num)⟩

/-- C7: `RangesOverlap` is true exactly when `startA ≤ endB` and
`startB ≤ endA` (closed intervals, touching endpoints overlap), and
`CombineRangesIfOverlap` returns `(false, 0, 0)` when that condition fails
and `(true, min startA startB, max endA endB)` when it holds. -/
theorem rangesOverlap_and_combine_spec (startA endA startB endB : ℚ) :
    (RangesOverlap startA endA startB endB = true ↔
      startA ≤ endB ∧ startB ≤ endA) ∧
    CombineRangesIfOverlap startA endA startB endB =
      if startA ≤ endB ∧ startB ≤ endA then
        (true, min startA startB, max endA endB)
      else (false, 0, 0) := by
  constructor
  · simp [RangesOverlap]
  · by_cases h : startA ≤ endB ∧ startB ≤ endA
    · rw [if_pos h]
      unfold CombineRangesIfOverlap
      rw [if_neg (by simp [RangesOverlap, h.1, h.2])]
      rw [GoMin_eq_min, GoMax_eq_max]
    · rw [if_neg h]
      unfold CombineRangesIfOverlap
      rw [if_pos]
      simp only [RangesOverlap, Bool.not_eq_true', Bool.and_eq_false_iff,
        decide_eq_false_iff_not, not_le]
      rcases not_and_or.mp h with h1 | h1
      · exact Or.inl (not_le.mp h1)
      · exact Or.inr (not_le.mp h1)

/-- C8: the special-value constructors return exact fixed bit patterns:
`QNaN32` has bit pattern `0xFFC00001` and `PInf64` has bit pattern
`0x7FF0000000000000`. -/
theorem qnan32_pinf64_bit_patterns :
    Float32bits QNaN32 = 0xFFC00001 ∧
    Float64bits PInf64 = 0x7FF0000000000000 := by
  constructor <;> decide
